import Mathlib

/-!
Verification of the NEO database core (models.py, database.py, filters.py).

The Python entities are embedded as Lean structures.  Floating-point values
(distances, velocities, diameters) are modelled as rationals; an unknown
diameter (Python's `float('nan')` default) is modelled as `none`, and every
comparison against it is false, matching IEEE semantics for the comparisons
the code performs.  Python `datetime` objects are modelled by `PyDateTime`,
carrying the proleptic-ordinal day (`date`, an integer, what `.date()`
returns) and the minute of the day (unused by the query logic).  Objects are
identified by their position (index) in the collection handed to the
database, mirroring Python object identity.  Fallible code — attribute
access on `None`, comparison of a number with `None` — is modelled with
`Option`: a `none` result of a filtering stage or of `query` models a raised
exception.  Python truthiness is modelled explicitly: `none` and numeric `0`
are falsy, dates and nonempty strings are truthy.
-/

/-- A near-Earth object (models.py `NearEarthObject`) after construction:
`designation` (defaults to the empty string), optional `name`, `diameter`
(`none` models the `float('nan')` "unknown" default), `hazardous` flag.
The `approaches` collection lives in the database state (`NEODatabase`),
as a list of indices, to avoid the NEO↔approach reference cycle. -/
structure NEO where
  designation : String
  name : Option String
  diameter : Option ℚ
  hazardous : Bool
  deriving DecidableEq

/-- The date-and-time of a close approach.  `date` is what Python's
`datetime.date()` extracts (an ordinal day, totally ordered); `minute` is
the time of day, which the query logic never consults. -/
structure PyDateTime where
  date : Int
  minute : Nat
  deriving DecidableEq

/-- A close approach (models.py `CloseApproach`) after construction:
foreign-key `designation`, approach `time`, `distance` (au) and `velocity`
(km/s).  The mutable `neo` back-reference lives in the database state. -/
structure CloseApproach where
  designation : String
  time : PyDateTime
  distance : ℚ
  velocity : ℚ
  deriving DecidableEq

/-- Python truthiness of an optional number: `None` and `0` are falsy. -/
def truthyQ : Option ℚ → Bool
  | none => false
  | some x => decide (x ≠ 0)

/-- Python truthiness of an optional date: `None` is falsy, every `date`
object is truthy. -/
def truthyD : Option Int → Bool
  | none => false
  | some _ => true

/-- The filter specification built by `create_filters` (a Python dict whose
keys are present only when supplied): each field is `none` when the
corresponding key is absent.  `date` holds the `(date, start_date,
end_date)` triple, `dist`/`vel`/`diam` the `(min, max)` pairs, `haz` the
hazardous flag, and `unsup_params` the conflict marker message. -/
structure FilterSpec where
  date : Option (Option Int × Option Int × Option Int)
  dist : Option (Option ℚ × Option ℚ)
  vel : Option (Option ℚ × Option ℚ)
  diam : Option (Option ℚ × Option ℚ)
  haz : Option Bool
  unsup_params : Option String
  deriving DecidableEq

/-- filters.py, `create_filters`: the start/end date conflict test
`if d[1] and d[2]: if d[2] < d[1]` (date objects are always truthy). -/
def dateConflict (s e : Option Int) : Bool :=
  match s, e with
  | some sd, some ed => decide (ed < sd)
  | _, _ => false

/-- filters.py, `create_filters`: the min/max conflict test
`if all([d[0], d[1]]): if d[1] < d[0]` — `all` uses Python truthiness, so a
bound equal to `0` disables the check. -/
def rangeConflict (mn mx : Option ℚ) : Bool :=
  match mn, mx with
  | some a, some b => decide (a ≠ 0) && decide (b ≠ 0) && decide (b < a)
  | _, _ => false

/-- filters.py `create_filters`: builds the criteria dict, records a
conflict message under `unsup_params` (later checks overwrite earlier
ones), then drops every entry whose value has no truthy component
(`dict(filter(lambda v: any(v[1]), filters.items()))` — note that this
keeps a nonempty conflict message and keeps criteria tuples with any
truthy component), and finally adds `haz` when `hazardous` is not `None`.
The Python messages interpolate the offending values; the model keeps
fixed message texts, only their presence and nonemptiness matter. -/
def create_filters (date start_date end_date : Option Int)
    (distance_min distance_max velocity_min velocity_max
     diameter_min diameter_max : Option ℚ)
    (hazardous : Option Bool) : FilterSpec :=
  let u1 : Option String :=
    if dateConflict start_date end_date then
      some "Your end_date cannot be earlier than your start_date. Please refine your filter arguments"
    else none
  let u2 : Option String :=
    if rangeConflict distance_min distance_max then
      some "Your max_distance cannot be less than your min_distance. Please refine your filter arguments"
    else u1
  let u3 : Option String :=
    if rangeConflict velocity_min velocity_max then
      some "Your max_velocity cannot be less than your min_velocity. Please refine your filter arguments"
    else u2
  let u4 : Option String :=
    if rangeConflict diameter_min diameter_max then
      some "Your max_diameter cannot be less than your min_diameter. Please refine your filter arguments"
    else u3
  { date :=
      if truthyD date || truthyD start_date || truthyD end_date then
        some (date, start_date, end_date)
      else none
    dist :=
      if truthyQ distance_min || truthyQ distance_max then
        some (distance_min, distance_max)
      else none
    vel :=
      if truthyQ velocity_min || truthyQ velocity_max then
        some (velocity_min, velocity_max)
      else none
    diam :=
      if truthyQ diameter_min || truthyQ diameter_max then
        some (diameter_min, diameter_max)
      else none
    haz := hazardous
    unsup_params :=
      match u4 with
      | none => none
      | some m => if m = "" then none else some m }

/-- filters.py `limit`: `if n and n > 0: islice(iterator, n)` — `n = None`
and `n = 0` are falsy, so the sequence is returned unchanged; a positive
`n` takes the first `n` values. -/
def limit {α : Type} (iterator : List α) (n : Option Int) : List α :=
  match n with
  | none => iterator
  | some k => if decide (k ≠ 0) && decide (0 < k) then iterator.take k.toNat else iterator

/-- The index set of the approaches whose designation equals `d` — the
`close_approaches` set collected for one NEO by the constructor's inner
loop in database.py. -/
def matchIdxs (apps : List CloseApproach) (d : String) : List Nat :=
  (List.range apps.length).filter (fun j => (apps[j]?).elim false (fun a => a.designation == d))

/-- The constructor's nested loop (database.py `NEODatabase.__init__`):
for each NEO (at running index `i`) scan all approaches, set the matching
approaches' `neo` reference to this NEO (`caNeo`, threaded through and
overwritten on every later match), and record this NEO's
`close_approaches` set. Returns the final `neo`-reference column and the
per-NEO approach index sets. -/
def linkAll (apps : List CloseApproach) :
    List NEO → Nat → List (Option Nat) → List (Option Nat) × List (List Nat)
  | [], _, caNeo => (caNeo, [])
  | neo :: rest, i, caNeo =>
    let caNeo2 := (apps.zip caNeo).map
      (fun q => if q.1.designation == neo.designation then some i else q.2)
    let res := linkAll apps rest (i + 1) caNeo2
    (res.1, matchIdxs apps neo.designation :: res.2)

/-- The database state after `NEODatabase.__init__` ran: the two
collections plus the link structure the constructor wrote into them —
`caNeo j` is approach `j`'s `.neo` reference (an index into `neos`, `none`
for an unlinked approach), `neoApps i` is NEO `i`'s `.approaches` set (as
approach indices). -/
structure NEODatabase where
  neos : List NEO
  approaches : List CloseApproach
  caNeo : List (Option Nat)
  neoApps : List (List Nat)

/-- database.py `NEODatabase.__init__`: stores both collections and runs
the linking pass (every approach starts with `neo = None`). -/
def NEODatabase.init (neos : List NEO) (approaches : List CloseApproach) : NEODatabase :=
  let st := linkAll approaches neos 0 (approaches.map (fun _ => none))
  ⟨neos, approaches, st.1, st.2⟩

/-- Approach `j`'s `.neo` reference as an index into `neos` (`none` both
for an out-of-range index and for an unlinked approach). -/
def NEODatabase.caNeoAt (db : NEODatabase) (j : Nat) : Option Nat :=
  (db.caNeo[j]?).join

/-- NEO `i`'s `.approaches` collection, as approach indices. -/
def NEODatabase.neoAppsAt (db : NEODatabase) (i : Nat) : List Nat :=
  (db.neoApps[i]?).getD []

/-- The NEO object referenced by approach `j`'s `.neo` attribute
(`none` models a `None` reference). -/
def NEODatabase.neoOfApp (db : NEODatabase) (j : Nat) : Option NEO :=
  (db.caNeoAt j).bind (fun i => db.neos[i]?)

/-- database.py `NEODatabase.get_neo_by_name`: first NEO whose `.name`
compares equal (`==`) to the query; `None` when there is none.  The query
and the field are both optional strings, and Python's `==` makes
`None == None` true. -/
def NEODatabase.get_neo_by_name (db : NEODatabase) (name : Option String) : Option NEO :=
  db.neos.find? (fun neo => neo.name == name)

/-- Python's comparison `a <= b` where either side may be the NaN model:
any comparison involving NaN is false. -/
def cmpLe : Option ℚ → Option ℚ → Bool
  | some a, some b => decide (a ≤ b)
  | _, _ => false

/-- One min/max filtering predicate from database.py `query`
(`if d[0] and d[1]: d[0] <= v <= d[1] elif d[0]: v >= d[0] else: v <= d[1]`).
Python truthiness: a `0` bound is falsy, so it never selects the first two
branches.  The `else` branch compares with `d[1]` unconditionally: when
`d[1]` is `None` this raises (`none` result).  `v` is `none` when the
compared value is NaN, making every comparison false. -/
def rangePred (mn mx : Option ℚ) (v : Option ℚ) : Option Bool :=
  if truthyQ mn && truthyQ mx then
    some (cmpLe mn v && cmpLe v mx)
  else if truthyQ mn then
    some (cmpLe mn v)
  else
    match mx with
    | some b => some (cmpLe v (some b))
    | none => none

/-- The date filtering predicate from database.py `query`
(`if d[0]: == elif d[1] and d[2]: range elif d[1]: >= else: <= d[2]`);
the `else` branch compares with `d[2]` unconditionally and raises when it
is `None`. -/
def datePred (d : Option Int × Option Int × Option Int) (ad : Int) : Option Bool :=
  match d.1 with
  | some ex => some (decide (ad = ex))
  | none =>
    match d.2.1, d.2.2 with
    | some s, some e => some (decide (s ≤ ad) && decide (ad ≤ e))
    | some s, none => some (decide (s ≤ ad))
    | none, some e => some (decide (ad ≤ e))
    | none, none => none

/-- One pass of `set(filter(pred, fil_app))`: keeps the elements on which
the predicate returns true; if the predicate raises on any element
(`none`), the whole pass raises. -/
def filterStage (p : Nat → Option Bool) : List Nat → Option (List Nat)
  | [] => some []
  | j :: rest =>
    match p j, filterStage p rest with
    | some b, some r => some (if b then j :: r else r)
    | _, _ => none

/-- One `if crit_key in args: fil_app = set(filter(...))` block of
database.py `query`: an absent criterion leaves the set untouched. -/
def applyCrit {β : Type} : Option β → (β → Nat → Option Bool) → List Nat → Option (List Nat)
  | none, _, l => some l
  | some c, p, l => filterStage (p c) l

/-- The date-stage predicate on approach index `j`. -/
def datePredFn (db : NEODatabase) (d : Option Int × Option Int × Option Int) (j : Nat) :
    Option Bool :=
  (db.approaches[j]?).bind (fun a => datePred d a.time.date)

/-- The distance-stage predicate (`app.distance`, never NaN here). -/
def distPredFn (db : NEODatabase) (b : Option ℚ × Option ℚ) (j : Nat) : Option Bool :=
  (db.approaches[j]?).bind (fun a => rangePred b.1 b.2 (some a.distance))

/-- The velocity-stage predicate. -/
def velPredFn (db : NEODatabase) (b : Option ℚ × Option ℚ) (j : Nat) : Option Bool :=
  (db.approaches[j]?).bind (fun a => rangePred b.1 b.2 (some a.velocity))

/-- The diameter-stage predicate: reads `app.neo.diameter`, raising
(`none`) when the approach's `neo` reference is `None`. -/
def diamPredFn (db : NEODatabase) (b : Option ℚ × Option ℚ) (j : Nat) : Option Bool :=
  (db.neoOfApp j).bind (fun n => rangePred b.1 b.2 n.diameter)

/-- The hazardous-stage predicate: `app.neo.hazardous` (or its negation),
raising when the `neo` reference is `None`. -/
def hazPredFn (db : NEODatabase) (b : Bool) (j : Nat) : Option Bool :=
  (db.neoOfApp j).map (fun n => if b then n.hazardous else !n.hazardous)

/-- database.py `NEODatabase.query`: if the `unsup_params` marker is
present, yield nothing (without touching any approach); otherwise start
from the full approach collection and narrow it stage by stage — date,
distance, velocity, diameter, hazardous — each present criterion keeping
only the approaches its predicate accepts.  The result is the list of
surviving approach indices; `none` models an exception raised inside a
stage. -/
def NEODatabase.query (db : NEODatabase) (args : FilterSpec) : Option (List Nat) :=
  if args.unsup_params.isSome then some []
  else
    ((((applyCrit args.date (datePredFn db) (List.range db.approaches.length)).bind
        (applyCrit args.dist (distPredFn db))).bind
        (applyCrit args.vel (velPredFn db))).bind
        (applyCrit args.diam (diamPredFn db))).bind
      (applyCrit args.haz (hazPredFn db))

/-- Python's short-circuit `and` on fallible Boolean predicates: a false
left operand skips the right one; a raising left operand raises. -/
def andO : Option Bool → Option Bool → Option Bool
  | some false, _ => some false
  | some true, y => y
  | none, _ => none

/-- The predicate a criterion contributes to a single-pass conjunction: an
absent criterion is vacuously true. -/
def critPred {β : Type} (crit : Option β) (p : β → Nat → Option Bool) (j : Nat) : Option Bool :=
  match crit with
  | none => some true
  | some c => p c j

/-- Modelled from the spec: the single-pass alternative to staged
narrowing — "a single full pass with a conjunction of five predicates"
(spec §4.4) — one sweep over the full approach collection keeping exactly
the approaches that satisfy the short-circuit conjunction of all present
criteria's predicates, with the same conflict-marker short-circuit. -/
def singlePassQuery (db : NEODatabase) (args : FilterSpec) : Option (List Nat) :=
  if args.unsup_params.isSome then some []
  else
    filterStage
      (fun j =>
        andO (andO (andO (andO (critPred args.date (datePredFn db) j)
          (critPred args.dist (distPredFn db) j))
          (critPred args.vel (velPredFn db) j))
          (critPred args.diam (diamPredFn db) j))
          (critPred args.haz (hazPredFn db) j))
      (List.range db.approaches.length)

/-- The per-kind range property the spec's predicate semantics assign to a
surviving value, with the code's truthiness caveat: a `0` bound is treated
as unset. `False` in the all-`none` case records that such a stage cannot
yield survivors (it raises instead). -/
def RangeSat (mn mx : Option ℚ) (q : ℚ) : Prop :=
  match mn, mx with
  | some a, some b =>
    if a ≠ 0 ∧ b ≠ 0 then a ≤ q ∧ q ≤ b else if a ≠ 0 then a ≤ q else q ≤ b
  | some a, none => a ≤ q
  | none, some b => q ≤ b
  | none, none => False

/-- The date property a surviving approach's date satisfies, per the shape
of the date criterion triple. -/
def DateSat (d : Option Int × Option Int × Option Int) (ad : Int) : Prop :=
  match d.1 with
  | some ex => ad = ex
  | none =>
    match d.2.1, d.2.2 with
    | some s, some e => s ≤ ad ∧ ad ≤ e
    | some s, none => s ≤ ad
    | none, some e => ad ≤ e
    | none, none => False

/-! Concrete fixtures used by witnesses and counterexamples. -/

/-- A hazardous NEO with a known diameter. -/
def neoA : NEO := ⟨"aa", some "Alpha", some 2, true⟩

/-- An unnamed, non-hazardous NEO with unknown (NaN) diameter. -/
def neoB : NEO := ⟨"bb", none, none, false⟩

/-- An approach of `neoA`. -/
def appA : CloseApproach := ⟨"aa", ⟨100, 30⟩, 5, 3⟩

/-- An approach of `neoB`. -/
def appB : CloseApproach := ⟨"bb", ⟨200, 0⟩, 1, 7⟩

/-- An approach whose designation matches no NEO (orphaned after linking). -/
def appOrph : CloseApproach := ⟨"zz", ⟨50, 0⟩, 2, 2⟩

/-- Two NEOs, their two approaches, fully linkable. -/
def dbPair : NEODatabase := NEODatabase.init [neoA, neoB] [appA, appB]

/-- One NEO, one linked approach and one orphaned approach. -/
def dbOrphan : NEODatabase := NEODatabase.init [neoA] [appA, appOrph]

/-- A database whose only NEO has no name. -/
def dbNoName : NEODatabase := NEODatabase.init [neoB] []

/-- A database holding a single orphaned approach. -/
def dbOrphOnly : NEODatabase := NEODatabase.init [] [appOrph]

/-- A specification with only a hazardous criterion. -/
def specHazOnly : FilterSpec := ⟨none, none, none, none, some true, none⟩

/-- A specification with a distance range and a hazardous criterion. -/
def specDistHaz : FilterSpec := ⟨none, some (some 1, some 6), none, none, some true, none⟩

/-- A distance criterion whose min is 2 and whose max is 0: both bounds are
given, max < min, yet truthiness disables both the conflict check and the
min-side test. -/
def specMinMaxZero : FilterSpec := ⟨none, some (some 2, some 0), none, none, none, none⟩

/-- An unlinked approach at distance 5. -/
def appFar : CloseApproach := ⟨"a", ⟨0, 0⟩, 5, 1⟩

/-- A database holding only `appFar` (orphaned, but no NEO-reading
criterion will be applied to it). -/
def dbFar : NEODatabase := NEODatabase.init [] [appFar]

/-- The specification produced from `start_date = 2, end_date = 1`. -/
def conflictSpec : FilterSpec :=
  create_filters none (some 2) (some 1) none none none none none none none

/-! Helper lemmas about the filtering stages. -/

/-- A stage raises as soon as its predicate raises on any element of the
current set. -/
theorem filterStage_eq_none {p : Nat → Option Bool} {l : List Nat} {j : Nat}
    (hj : j ∈ l) (hp : p j = none) : filterStage p l = none := by
  induction l with
  | nil => cases hj
  | cons a rest ih =>
    rcases List.mem_cons.mp hj with rfl | hj2
    · cases hrest : filterStage p rest <;> simp [filterStage, hp, hrest]
    · cases hpa : p a <;> simp [filterStage, hpa, ih hj2]

/-- A min bound equal to 0 behaves exactly like an absent min bound in the
range predicate. -/
theorem rangePred_zero_min (m : ℚ) (v : Option ℚ) :
    rangePred (some 0) (some m) v = rangePred none (some m) v := by
  simp [rangePred, truthyQ]

/-! The claims. -/

/-- C3: for every filter specification carrying the conflict marker and
every database, `query` yields the empty sequence.  The statement
quantifies over all databases — including ones holding orphaned
approaches, on which any evaluated diameter/hazard predicate would raise —
and still returns `some []` rather than `none`, which witnesses that no
filtering stage runs and no predicate is evaluated. -/
theorem C3_conflict_marker_short_circuits (db : NEODatabase) (args : FilterSpec)
    (h : args.unsup_params.isSome = true) : db.query args = some [] := by
  simp [NEODatabase.query, h]

theorem C3_witness :
    conflictSpec.unsup_params.isSome = true ∧ dbOrphOnly.query conflictSpec = some [] :=
  ⟨by decide, C3_conflict_marker_short_circuits dbOrphOnly conflictSpec (by decide)⟩

/-- C7: with an empty specification (all criteria absent — exactly what
`create_filters` returns when every argument is `None`), `query` yields
every approach of the database, none filtered out and none added, in the
collection's native order.  `query` is a pure function of the database
state, so repeated calls on the same instance yield the same sequence. -/
theorem C7_empty_spec_yields_all (db : NEODatabase) :
    db.query (create_filters none none none none none none none none none none) =
      some (List.range db.approaches.length) := rfl

/-- C9: `limit` with `n = 0` or `n = None` returns the sequence unchanged,
and with `0 < n ≤ length` it returns exactly the first `n` elements in the
sequence's native order. -/
theorem C9_limit_spec (α : Type) (seq : List α) (n : Int) (hn : 0 < n)
    (hlen : n.toNat ≤ seq.length) :
    limit seq (some 0) = seq ∧ limit seq none = seq ∧
    limit seq (some n) = seq.take n.toNat ∧
    (limit seq (some n)).length = n.toNat ∧
    (∀ i, i < n.toNat → (limit seq (some n))[i]? = seq[i]?) := by
  have hne : n ≠ 0 := ne_of_gt hn
  refine ⟨by simp [limit], rfl, by simp [limit, hne, hn], ?_, ?_⟩
  · simp [limit, hne, hn, List.length_take, Nat.min_eq_left hlen]
  · intro i hi
    simp [limit, hne, hn, List.getElem?_take, hi]

theorem C9_witness :
    (0 : Int) < 3 ∧ (3 : Int).toNat ≤ [10, 20, 30, 40, 50].length ∧
    limit [10, 20, 30, 40, 50] (some 0) = [10, 20, 30, 40, 50] ∧
    limit [10, 20, 30, 40, 50] none = [10, 20, 30, 40, 50] ∧
    limit [10, 20, 30, 40, 50] (some 3) = [10, 20, 30] := by
  have h := C9_limit_spec Nat [10, 20, 30, 40, 50] 3 (by decide) (by decide)
  exact ⟨by decide, by decide, h.1, h.2.1, h.2.2.1⟩

/-- C5 counterexample: the claim says a `None` (absent-name) query must
return the no-match sentinel even when a NEO's name field is also absent;
but `get_neo_by_name` is a plain `==` scan and Python's `None == None` is
true, so on a database whose NEO has `name = None` the `None` query
returns that NEO instead of the sentinel. -/
theorem C5_counterexample :
    dbNoName.get_neo_by_name none = some neoB ∧ neoB.name = none := by decide

/-- C5 amended: `get_neo_by_name` performs a plain first-match equality
scan on the name field — a `None` query matches a `None`-named NEO and an
empty-string query matches an empty-named NEO (absence does match
absence); the no-match sentinel is returned exactly when no NEO's name
equals the query, and any returned NEO belongs to the database and has
the queried name. -/
theorem C5_name_lookup (db : NEODatabase) (name : Option String) :
    (db.get_neo_by_name name = none ↔ ∀ neo ∈ db.neos, neo.name ≠ name) ∧
    (∀ r, db.get_neo_by_name name = some r → r ∈ db.neos ∧ r.name = name) := by
  constructor
  · rw [NEODatabase.get_neo_by_name, List.find?_eq_none]
    constructor
    · intro h neo hneo
      have := h neo hneo
      simpa [beq_iff_eq] using this
    · intro h neo hneo
      simpa [beq_iff_eq] using h neo hneo
  · intro r hr
    refine ⟨List.mem_of_find?_eq_some hr, ?_⟩
    have := List.find?_some hr
    simpa [beq_iff_eq] using this

theorem C5_witness :
    (dbNoName.get_neo_by_name (some "Alpha") = none ↔
      ∀ neo ∈ dbNoName.neos, neo.name ≠ some "Alpha") ∧
    (∀ r, dbNoName.get_neo_by_name (some "Alpha") = some r →
      r ∈ dbNoName.neos ∧ r.name = some "Alpha") :=
  C5_name_lookup dbNoName (some "Alpha")

/-- C4 counterexample: the claim says a hazardous-criterion query over a
database with an orphaned approach excludes it without crashing (here it
would have to return `some []`); instead the stage evaluates
`app.neo.hazardous` on the `None` reference and the whole query raises
(`none`). -/
theorem C4_counterexample :
    dbOrphOnly.query specHazOnly = none ∧ dbOrphOnly.caNeoAt 0 = none := by decide

/-- C4 amended: the filtering stages are not total on orphaned approaches —
whenever a hazardous criterion is applied and an orphaned approach reaches
that stage (here: the only criterion, so every approach reaches it), the
query raises instead of excluding the approach; the same `app.neo` read
aborts a diameter stage. -/
theorem C4_orphan_crash (db : NEODatabase) (args : FilterSpec)
    (hm : args.unsup_params = none) (hd : args.date = none) (hdi : args.dist = none)
    (hv : args.vel = none) (hdm : args.diam = none) (b : Bool) (hh : args.haz = some b)
    (j : Nat) (hj : j < db.approaches.length) (horph : db.neoOfApp j = none) :
    db.query args = none := by
  have hpred : hazPredFn db b j = none := by simp [hazPredFn, horph]
  have hmem : j ∈ List.range db.approaches.length := List.mem_range.mpr hj
  simp [NEODatabase.query, hm, hd, hdi, hv, hdm, hh, applyCrit,
    filterStage_eq_none hmem hpred]

theorem C4_witness :
    specHazOnly.unsup_params = none ∧ dbOrphan.caNeoAt 1 = none ∧
    dbOrphan.query specHazOnly = none :=
  ⟨by decide, by decide,
    C4_orphan_crash dbOrphan specHazOnly (by decide) (by decide) (by decide) (by decide)
      (by decide) true (by decide) 1 (by decide) (by decide)⟩

/-- C2 counterexample: with `start_date = 2, end_date = 1` the returned
specification does carry the conflict marker, but the date criterion is
NOT discarded — the dict-filter `any(v[1])` keeps every criterion with a
truthy component, so the specification carries an active date criterion
alongside the marker, contradicting "no other active criterion". -/
theorem C2_counterexample :
    conflictSpec.unsup_params.isSome = true ∧
    conflictSpec.date = some (none, some 2, some 1) := by decide

/-- C2 amended: on a conflict (end < start with both dates given, or
max < min with both bounds given and nonzero — a zero bound is falsy and
skips the check), the specification carries the conflict marker, but the
other supplied criteria are retained, not discarded: each criterion key is
kept exactly when one of its components is truthy, and the hazardous flag
is kept whenever it was supplied.  (The query engine still short-circuits
on the marker, so the retained criteria are never applied.) -/
theorem C2_conflict_marker (date start_date end_date : Option Int)
    (dmin dmax vmin vmax dimin dimax : Option ℚ) (hz : Option Bool)
    (h : dateConflict start_date end_date = true ∨ rangeConflict dmin dmax = true ∨
         rangeConflict vmin vmax = true ∨ rangeConflict dimin dimax = true) :
    (create_filters date start_date end_date dmin dmax vmin vmax dimin dimax hz).unsup_params.isSome = true ∧
    (create_filters date start_date end_date dmin dmax vmin vmax dimin dimax hz).date =
      (if truthyD date || truthyD start_date || truthyD end_date then
        some (date, start_date, end_date) else none) ∧
    (create_filters date start_date end_date dmin dmax vmin vmax dimin dimax hz).dist =
      (if truthyQ dmin || truthyQ dmax then some (dmin, dmax) else none) ∧
    (create_filters date start_date end_date dmin dmax vmin vmax dimin dimax hz).vel =
      (if truthyQ vmin || truthyQ vmax then some (vmin, vmax) else none) ∧
    (create_filters date start_date end_date dmin dmax vmin vmax dimin dimax hz).diam =
      (if truthyQ dimin || truthyQ dimax then some (dimin, dimax) else none) ∧
    (create_filters date start_date end_date dmin dmax vmin vmax dimin dimax hz).haz = hz := by
  refine ⟨?_, rfl, rfl, rfl, rfl, rfl⟩
  rcases h with h | h | h | h <;>
    by_cases h4 : rangeConflict dimin dimax = true <;>
    by_cases h3 : rangeConflict vmin vmax = true <;>
    by_cases h2 : rangeConflict dmin dmax = true <;>
    by_cases h1 : dateConflict start_date end_date = true <;>
    simp_all [create_filters]

theorem C2_witness :
    (create_filters none (some 2) (some 1) none none none none none none (some false)).unsup_params.isSome = true ∧
    (create_filters none (some 2) (some 1) none none none none none none (some false)).date =
      (if truthyD none || truthyD (some 2) || truthyD (some 1) then
        some (none, some 2, some 1) else none) ∧
    (create_filters none (some 2) (some 1) none none none none none none (some false)).dist =
      (if truthyQ none || truthyQ none then some ((none : Option ℚ), (none : Option ℚ)) else none) ∧
    (create_filters none (some 2) (some 1) none none none none none none (some false)).vel =
      (if truthyQ none || truthyQ none then some ((none : Option ℚ), (none : Option ℚ)) else none) ∧
    (create_filters none (some 2) (some 1) none none none none none none (some false)).diam =
      (if truthyQ none || truthyQ none then some ((none : Option ℚ), (none : Option ℚ)) else none) ∧
    (create_filters none (some 2) (some 1) none none none none none none (some false)).haz = some false :=
  C2_conflict_marker none (some 2) (some 1) none none none none none none (some false)
    (Or.inl (by decide))

/-- C10: both `create_filters` and `query` treat a numeric bound equal to
0 as unset.  With `distance_min = 0` and no max, no distance criterion is
emitted at all; with `distance_min = 0` and a given max, the conflict
check is skipped even when `max < min` (here a negative max) and the pair
is stored; and during querying a stored `(0, max)` distance pair filters
exactly as `(None, max)` — only the max-bound test runs, the 0 min never
participates. -/
theorem C10_zero_bound_unset :
    ((create_filters none none none (some 0) none none none none none none).dist = none ∧
     (create_filters none none none (some 0) none none none none none none).unsup_params = none) ∧
    (∀ m : ℚ, m < 0 →
      (create_filters none none none (some 0) (some m) none none none none none).unsup_params = none ∧
      (create_filters none none none (some 0) (some m) none none none none none).dist =
        some (some 0, some m)) ∧
    (∀ (db : NEODatabase) (args : FilterSpec) (m : ℚ), args.dist = some (some 0, some m) →
      db.query args =
        db.query ⟨args.date, some (none, some m), args.vel, args.diam, args.haz,
          args.unsup_params⟩) := by
  refine ⟨by decide, ?_, ?_⟩
  · intro m hm
    have hne : m ≠ 0 := ne_of_lt hm
    constructor
    · simp [create_filters, dateConflict, rangeConflict]
    · simp [create_filters, truthyQ, hne]
  · intro db args m hd
    have hfn : distPredFn db (some 0, some m) = distPredFn db (none, some m) :=
      funext fun j => by simp [distPredFn, rangePred_zero_min]
    simp only [NEODatabase.query, hd, applyCrit, hfn]

theorem C10_witness :
    ((create_filters none none none (some 0) none none none none none none).dist = none ∧
     (create_filters none none none (some 0) none none none none none none).unsup_params = none) ∧
    ((create_filters none none none (some 0) (some (-3)) none none none none none).unsup_params = none ∧
     (create_filters none none none (some 0) (some (-3)) none none none none none).dist =
       some (some 0, some (-3))) ∧
    dbFar.query ⟨none, some (some 0, some (-3)), none, none, none, none⟩ =
      dbFar.query ⟨none, some (none, some (-3)), none, none, none, none⟩ :=
  ⟨C10_zero_bound_unset.1, C10_zero_bound_unset.2.1 (-3) (by norm_num),
    C10_zero_bound_unset.2.2 dbFar ⟨none, some (some 0, some (-3)), none, none, none, none⟩
      (-3) rfl⟩

/-- Filtering with the always-true predicate keeps the set unchanged. -/
theorem filterStage_const_true (l : List Nat) :
    filterStage (fun _ => some true) l = some l := by
  induction l with
  | nil => rfl
  | cons a rest ih => simp [filterStage, ih]

/-- An `if crit in args` block equals one filtering pass with the
criterion's contributed predicate (vacuously true when absent). -/
theorem applyCrit_fun_eq {β : Type} (crit : Option β) (p : β → Nat → Option Bool) :
    applyCrit crit p = filterStage (fun j => critPred crit p j) := by
  funext l
  cases crit with
  | none => simp [applyCrit, critPred, filterStage_const_true]
  | some c => rfl

/-- Two consecutive filtering passes over the surviving set equal one pass
with the short-circuit conjunction of the two predicates — including the
raising behaviour: the second predicate is only ever evaluated on
survivors of the first. -/
theorem filterStage_bind (p q : Nat → Option Bool) (l : List Nat) :
    (filterStage p l).bind (filterStage q) = filterStage (fun j => andO (p j) (q j)) l := by
  induction l with
  | nil => rfl
  | cons j rest ih =>
    simp only [filterStage]
    rw [← ih]
    cases hp : p j with
    | none => simp [andO]
    | some b =>
      cases b with
      | true =>
        cases hr : filterStage p rest with
        | none => cases hq : q j <;> simp [andO]
        | some r => simp [andO, filterStage]
      | false =>
        cases hr : filterStage p rest with
        | none => simp [andO]
        | some r => cases hqr : filterStage q r <;> simp [andO, hqr]

/-- C8: for every database and conflict-free specification, the staged
narrowing performed by `query` (one pass per present criterion over a
progressively smaller set) produces exactly the same result as a single
pass over the full approach collection keeping the approaches that
satisfy the short-circuit conjunction of all present predicates — the
same surviving approaches in the same order, and the same raising
behaviour. -/
theorem C8_staged_equals_single_pass (db : NEODatabase) (args : FilterSpec)
    (h : args.unsup_params = none) :
    db.query args = singlePassQuery db args := by
  rw [NEODatabase.query, singlePassQuery, h]
  rw [applyCrit_fun_eq args.date, applyCrit_fun_eq args.dist, applyCrit_fun_eq args.vel,
    applyCrit_fun_eq args.diam, applyCrit_fun_eq args.haz, filterStage_bind,
    filterStage_bind, filterStage_bind, filterStage_bind]

theorem C8_witness :
    specDistHaz.unsup_params = none ∧
    dbPair.query specDistHaz = singlePassQuery dbPair specDistHaz :=
  ⟨rfl, C8_staged_equals_single_pass dbPair specDistHaz rfl⟩

/-- Every element of a successful filtering pass came from the input set
and passed the predicate. -/
theorem filterStage_mem {p : Nat → Option Bool} {l r : List Nat}
    (h : filterStage p l = some r) {j : Nat} (hj : j ∈ r) : j ∈ l ∧ p j = some true := by
  induction l generalizing r with
  | nil =>
    simp only [filterStage] at h
    injection h with h
    subst h
    cases hj
  | cons a rest ih =>
    cases hpa : p a with
    | none =>
      have hnone : filterStage p (a :: rest) = none := by
        cases hrest : filterStage p rest <;> simp [filterStage, hpa, hrest]
      rw [hnone] at h
      cases h
    | some b =>
      cases hrest : filterStage p rest with
      | none =>
        have hnone : filterStage p (a :: rest) = none := by simp [filterStage, hpa, hrest]
        rw [hnone] at h
        cases h
      | some r2 =>
        have heq : filterStage p (a :: rest) = some (if b then a :: r2 else r2) := by
          simp [filterStage, hpa, hrest]
        rw [heq] at h
        injection h with h
        cases b with
        | true =>
          subst h
          rcases List.mem_cons.mp hj with rfl | hj2
          · exact ⟨List.mem_cons_self _ _, hpa⟩
          · obtain ⟨hmem, hp⟩ := ih hrest hj2
            exact ⟨List.mem_cons_of_mem a hmem, hp⟩
        | false =>
          subst h
          obtain ⟨hmem, hp⟩ := ih hrest hj
          exact ⟨List.mem_cons_of_mem a hmem, hp⟩

/-- Every element surviving a criterion block came from the input set and,
when the criterion is present, passed its predicate. -/
theorem applyCrit_mem {β : Type} {crit : Option β} {p : β → Nat → Option Bool} {l r : List Nat}
    (h : applyCrit crit p l = some r) {j : Nat} (hj : j ∈ r) :
    j ∈ l ∧ ∀ c, crit = some c → p c j = some true := by
  cases crit with
  | none =>
    simp only [applyCrit] at h
    injection h with h
    subst h
    exact ⟨hj, fun c hc => nomatch hc⟩
  | some c =>
    simp only [applyCrit] at h
    obtain ⟨hmem, hp⟩ := filterStage_mem h hj
    exact ⟨hmem, fun c2 hc => by injection hc with hc; subst hc; exact hp⟩

/-- A range predicate accepting a value means the value is a real number
(not NaN) satisfying the truthiness-corrected bound property. -/
theorem rangePred_some_true {mn mx v : Option ℚ}
    (h : rangePred mn mx v = some true) : ∃ q, v = some q ∧ RangeSat mn mx q := by
  cases mn with
  | none =>
    cases mx with
    | none => simp [rangePred, truthyQ] at h
    | some b =>
      cases v with
      | none => simp [rangePred, truthyQ, cmpLe] at h
      | some q =>
        have hq : q ≤ b := by simpa [rangePred, truthyQ, cmpLe] using h
        exact ⟨q, rfl, by simpa [RangeSat] using hq⟩
  | some a =>
    by_cases ha : a = 0
    · subst ha
      cases mx with
      | none => simp [rangePred, truthyQ] at h
      | some b =>
        cases v with
        | none => simp [rangePred, truthyQ, cmpLe] at h
        | some q =>
          have hq : q ≤ b := by simpa [rangePred, truthyQ, cmpLe] using h
          exact ⟨q, rfl, by simpa [RangeSat] using hq⟩
    · cases mx with
      | none =>
        cases v with
        | none => simp [rangePred, truthyQ, cmpLe, ha] at h
        | some q =>
          have hq : a ≤ q := by simpa [rangePred, truthyQ, cmpLe, ha] using h
          exact ⟨q, rfl, by simpa [RangeSat] using hq⟩
      | some b =>
        by_cases hb : b = 0
        · subst hb
          cases v with
          | none => simp [rangePred, truthyQ, cmpLe, ha] at h
          | some q =>
            have hq : a ≤ q := by simpa [rangePred, truthyQ, cmpLe, ha] using h
            exact ⟨q, rfl, by simpa [RangeSat, ha] using hq⟩
        · cases v with
          | none => simp [rangePred, truthyQ, cmpLe, ha, hb] at h
          | some q =>
            have hq : a ≤ q ∧ q ≤ b := by simpa [rangePred, truthyQ, cmpLe, ha, hb] using h
            exact ⟨q, rfl, by simpa [RangeSat, ha, hb] using hq⟩

/-- The date predicate accepting a date means the date satisfies the
per-shape date property. -/
theorem datePred_some_true {d : Option Int × Option Int × Option Int} {ad : Int}
    (h : datePred d ad = some true) : DateSat d ad := by
  obtain ⟨e1, s, e2⟩ := d
  cases e1 with
  | some ex => simpa [datePred, DateSat] using h
  | none => cases s <;> cases e2 <;> simp_all [datePred, DateSat]

/-- The hazardous predicate accepting an approach means its NEO reference
is resolved and the NEO's flag equals the queried value. -/
theorem hazPredFn_some_true {db : NEODatabase} {b : Bool} {j : Nat}
    (h : hazPredFn db b j = some true) :
    ∃ n, db.neoOfApp j = some n ∧ n.hazardous = b := by
  unfold hazPredFn at h
  cases hn : db.neoOfApp j with
  | none => rw [hn] at h; cases h
  | some n =>
    rw [hn] at h
    refine ⟨n, rfl, ?_⟩
    cases b <;> simp_all

/-- The diameter predicate accepting an approach means its NEO reference
is resolved, its diameter known, and within the corrected bounds. -/
theorem diamPredFn_some_true {db : NEODatabase} {bounds : Option ℚ × Option ℚ} {j : Nat}
    (h : diamPredFn db bounds j = some true) :
    ∃ n q, db.neoOfApp j = some n ∧ n.diameter = some q ∧ RangeSat bounds.1 bounds.2 q := by
  unfold diamPredFn at h
  cases hn : db.neoOfApp j with
  | none => rw [hn] at h; cases h
  | some n =>
    rw [hn, Option.some_bind] at h
    obtain ⟨q, hq, hsat⟩ := rangePred_some_true h
    exact ⟨n, q, rfl, hq, hsat⟩

/-- C6 counterexample: the claim's "with both bounds, min ≤ value ≤ max"
fails because a `0` bound is falsy: with `dist = (min 2, max 0)` — both
bounds present — the query yields an approach at distance 5, which
violates the claimed `value ≤ max` (5 ≤ 0 is false); only the min-side
test was applied. -/
theorem C6_counterexample :
    dbFar.query specMinMaxZero = some [0] ∧
    specMinMaxZero.dist = some (some 2, some 0) ∧
    dbFar.approaches[0]? = some appFar ∧
    appFar.distance = 5 ∧ ¬ ((5 : ℚ) ≤ 0) := by decide

/-- C6 amended: every approach yielded by a conflict-free query satisfies
every predicate present in the specification, with the code's truthiness
caveat — a numeric bound equal to 0 is treated as unset (with both bounds
and min = 0 only `value ≤ max` is enforced; with max = 0 and min ≠ 0 only
`value ≥ min`).  The date criterion behaves exactly as claimed (exact
equality, closed range, or one-sided bounds on `time.date`); a diameter
criterion further guarantees the NEO link is resolved and the diameter
known (NaN never passes); a hazardous criterion guarantees the linked
NEO's flag equals the queried value — in particular a `hazardous = true`
query never yields an approach whose NEO is not hazardous. -/
theorem C6_query_soundness (db : NEODatabase) (args : FilterSpec)
    (hns : args.unsup_params = none) (l : List Nat) (hq : db.query args = some l)
    (j : Nat) (hj : j ∈ l) (a : CloseApproach) (ha : db.approaches[j]? = some a) :
    (∀ d, args.date = some d → DateSat d a.time.date) ∧
    (∀ mn mx, args.dist = some (mn, mx) → RangeSat mn mx a.distance) ∧
    (∀ mn mx, args.vel = some (mn, mx) → RangeSat mn mx a.velocity) ∧
    (∀ mn mx, args.diam = some (mn, mx) →
      ∃ n q, db.neoOfApp j = some n ∧ n.diameter = some q ∧ RangeSat mn mx q) ∧
    (∀ b, args.haz = some b → ∃ n, db.neoOfApp j = some n ∧ n.hazardous = b) := by
  rw [NEODatabase.query, hns] at hq
  simp only [Option.isSome_none, Bool.false_eq_true, if_false] at hq
  obtain ⟨l4, hc4, hH⟩ := Option.bind_eq_some.mp hq
  obtain ⟨l3, hc3, hDm⟩ := Option.bind_eq_some.mp hc4
  obtain ⟨l2, hc2, hV⟩ := Option.bind_eq_some.mp hc3
  obtain ⟨l1, hc1, hDs⟩ := Option.bind_eq_some.mp hc2
  obtain ⟨hj4, hhaz⟩ := applyCrit_mem hH hj
  obtain ⟨hj3, hdiam⟩ := applyCrit_mem hDm hj4
  obtain ⟨hj2, hvel⟩ := applyCrit_mem hV hj3
  obtain ⟨hj1, hdist⟩ := applyCrit_mem hDs hj2
  obtain ⟨hj0, hdate⟩ := applyCrit_mem hc1 hj1
  refine ⟨?_, ?_, ?_, ?_, ?_⟩
  · intro d hd
    have hp := hdate d hd
    rw [datePredFn, ha, Option.some_bind] at hp
    exact datePred_some_true hp
  · intro mn mx hmn
    have hp := hdist (mn, mx) hmn
    rw [distPredFn, ha, Option.some_bind] at hp
    obtain ⟨q, hq2, hsat⟩ := rangePred_some_true hp
    injection hq2 with hq2
    rwa [hq2]
  · intro mn mx hmn
    have hp := hvel (mn, mx) hmn
    rw [velPredFn, ha, Option.some_bind] at hp
    obtain ⟨q, hq2, hsat⟩ := rangePred_some_true hp
    injection hq2 with hq2
    rwa [hq2]
  · intro mn mx hmn
    exact diamPredFn_some_true (hdiam (mn, mx) hmn)
  · intro b hb
    exact hazPredFn_some_true (hhaz b hb)

theorem C6_witness :
    (∀ d, specDistHaz.date = some d → DateSat d appA.time.date) ∧
    (∀ mn mx, specDistHaz.dist = some (mn, mx) → RangeSat mn mx appA.distance) ∧
    (∀ mn mx, specDistHaz.vel = some (mn, mx) → RangeSat mn mx appA.velocity) ∧
    (∀ mn mx, specDistHaz.diam = some (mn, mx) →
      ∃ n q, dbPair.neoOfApp 0 = some n ∧ n.diameter = some q ∧ RangeSat mn mx q) ∧
    (∀ b, specDistHaz.haz = some b → ∃ n, dbPair.neoOfApp 0 = some n ∧ n.hazardous = b) :=
  C6_query_soundness dbPair specDistHaz rfl [0] (by decide) 0 (by decide) appA (by decide)

/-- An index holding a value lies within the list. -/
theorem getElem?_lt_length {α : Type} {l : List α} {j : Nat} {a : α}
    (h : l[j]? = some a) : j < l.length := by
  by_contra hc
  rw [List.getElem?_eq_none (Nat.le_of_not_lt hc)] at h
  cases h

/-- Every index below the length holds a value. -/
theorem exists_getElem?_of_lt {α : Type} {l : List α} {j : Nat} (h : j < l.length) :
    ∃ o, l[j]? = some o := by
  cases hco : l[j]? with
  | none =>
    rw [List.getElem?_eq_none_iff] at hco
    omega
  | some o => exact ⟨o, rfl⟩

/-- Entry `j` of the constructor's per-NEO reference update: a matching
approach gets the current NEO index, any other keeps its old reference. -/
theorem update_getElem (apps : List CloseApproach) (col : List (Option Nat)) (d : String)
    (i j : Nat) (a : CloseApproach) (ha : apps[j]? = some a) (o : Option Nat)
    (ho : col[j]? = some o) :
    ((apps.zip col).map (fun q => if q.1.designation == d then some i else q.2))[j]? =
      some (if a.designation == d then some i else o) := by
  have hz : (apps.zip col)[j]? = some (a, o) := by
    induction apps generalizing col j with
    | nil => cases ha
    | cons x xs ih =>
      cases col with
      | nil => cases ho
      | cons y ys =>
        cases j with
        | zero =>
          simp only [List.getElem?_cons_zero] at ha ho
          injection ha with ha
          injection ho with ho
          subst ha
          subst ho
          simp [List.zip_cons_cons]
        | succ k =>
          rw [List.zip_cons_cons]
          simp only [List.getElem?_cons_succ] at ha ho ⊢
          exact ih ys k ha ho
  rw [List.getElem?_map, hz]
  rfl

/-- The linking pass preserves the length of the reference column. -/
theorem linkAll_fst_length (apps : List CloseApproach) (l : List NEO) (i : Nat)
    (col : List (Option Nat)) (h : col.length = apps.length) :
    (linkAll apps l i col).1.length = apps.length := by
  induction l generalizing i col with
  | nil => simpa [linkAll] using h
  | cons neo rest ih =>
    simp only [linkAll]
    exact ih (i + 1) _ (by simp [h])

/-- The per-NEO approach sets the constructor records are exactly the
matching index sets, one per NEO, in order. -/
theorem linkAll_snd (apps : List CloseApproach) (l : List NEO) (i : Nat)
    (col : List (Option Nat)) :
    (linkAll apps l i col).2 = l.map (fun neo => matchIdxs apps neo.designation) := by
  induction l generalizing i col with
  | nil => rfl
  | cons neo rest ih => simp [linkAll, ih]

/-- If no NEO in the remaining list matches approach `j`'s designation,
the linking pass leaves entry `j` of the reference column unchanged. -/
theorem linkAll_fst_no_match (apps : List CloseApproach) (l : List NEO) (i : Nat)
    (col : List (Option Nat)) (hlen : col.length = apps.length)
    (j : Nat) (a : CloseApproach) (ha : apps[j]? = some a)
    (hnm : ∀ neo ∈ l, (a.designation == neo.designation) = false) :
    (linkAll apps l i col).1[j]? = col[j]? := by
  induction l generalizing i col with
  | nil => rfl
  | cons neo rest ih =>
    obtain ⟨o, ho⟩ := exists_getElem?_of_lt (l := col) (j := j)
      (by rw [hlen]; exact getElem?_lt_length ha)
    have hup := update_getElem apps col neo.designation i j a ha o ho
    rw [hnm neo (List.mem_cons_self _ _)] at hup
    simp only [Bool.false_eq_true, if_false] at hup
    simp only [linkAll]
    rw [ih (i + 1) _ (by simp [hlen]) (fun n hn => hnm n (List.mem_cons_of_mem _ hn)), hup, ho]

/-- If exactly one NEO in the remaining list (at offset `k`) matches
approach `j`'s designation, the linking pass sets entry `j` of the
reference column to that NEO's index `i + k` (last and only writer). -/
theorem linkAll_fst_unique_match (apps : List CloseApproach) (l : List NEO) (i : Nat)
    (col : List (Option Nat)) (hlen : col.length = apps.length)
    (j : Nat) (a : CloseApproach) (ha : apps[j]? = some a)
    (k : Nat) (neo : NEO) (hk : l[k]? = some neo)
    (hmatch : (a.designation == neo.designation) = true)
    (huniq : ∀ k2 neo2, l[k2]? = some neo2 → (a.designation == neo2.designation) = true → k2 = k) :
    (linkAll apps l i col).1[j]? = some (some (i + k)) := by
  induction l generalizing i col k with
  | nil => cases hk
  | cons neo0 rest ih =>
    obtain ⟨o, ho⟩ := exists_getElem?_of_lt (l := col) (j := j)
      (by rw [hlen]; exact getElem?_lt_length ha)
    cases k with
    | zero =>
      simp only [List.getElem?_cons_zero] at hk
      injection hk with hk
      subst hk
      have hup := update_getElem apps col neo0.designation i j a ha o ho
      rw [hmatch] at hup
      simp only [if_true] at hup
      have hnm : ∀ n2 ∈ rest, (a.designation == n2.designation) = false := by
        intro n2 hn2
        by_contra hcon
        simp only [Bool.not_eq_false] at hcon
        obtain ⟨k2, hk2⟩ := List.mem_iff_getElem?.mp hn2
        have h0 := huniq (k2 + 1) n2 (by simpa [List.getElem?_cons_succ] using hk2) hcon
        exact absurd h0 (Nat.succ_ne_zero k2)
      simp only [linkAll]
      rw [linkAll_fst_no_match apps rest (i + 1) _ (by simp [hlen]) j a ha hnm, hup]
      simp
    | succ k2 =>
      have hfalse : (a.designation == neo0.designation) = false := by
        by_contra hcon
        simp only [Bool.not_eq_false] at hcon
        have h0 := huniq 0 neo0 (by simp) hcon
        exact absurd h0.symm (Nat.succ_ne_zero k2)
      have hup := update_getElem apps col neo0.designation i j a ha o ho
      rw [hfalse] at hup
      simp only [Bool.false_eq_true, if_false] at hup
      have hk2 : rest[k2]? = some neo := by simpa [List.getElem?_cons_succ] using hk
      have huniq2 : ∀ k3 neo2, rest[k3]? = some neo2 →
          (a.designation == neo2.designation) = true → k3 = k2 := by
        intro k3 neo2 hk3 hb3
        have := huniq (k3 + 1) neo2 (by simpa [List.getElem?_cons_succ] using hk3) hb3
        omega
      simp only [linkAll]
      rw [ih (i + 1) _ (by simp [hlen]) k2 hk2 huniq2]
      have harith : i + 1 + k2 = i + (k2 + 1) := by omega
      rw [harith]

/-- Membership in a NEO's recorded approach set is exactly a designation
match at an in-range approach index. -/
theorem mem_matchIdxs (apps : List CloseApproach) (d : String) (j : Nat) :
    j ∈ matchIdxs apps d ↔ ∃ a, apps[j]? = some a ∧ a.designation = d := by
  unfold matchIdxs
  rw [List.mem_filter, List.mem_range]
  constructor
  · rintro ⟨hj, hp⟩
    cases ha : apps[j]? with
    | none => rw [ha] at hp; simp [Option.elim] at hp
    | some a =>
      rw [ha] at hp
      simp only [Option.elim] at hp
      exact ⟨a, rfl, by simpa using hp⟩
  · rintro ⟨a, ha, hd⟩
    refine ⟨getElem?_lt_length ha, ?_⟩
    rw [ha]
    simp [Option.elim, hd]

/-- C1: for consistent collections — NEO designations pairwise distinct
(they are the data set's unique key) and every approach's designation
equal to some NEO's — after the constructor runs, every approach's `neo`
reference is resolved and points at the NEO with the matching designation;
every NEO's approach set holds exactly the approaches with its
designation; and the two views agree: an approach references NEO `i` if
and only if it belongs to NEO `i`'s approach set. -/
theorem C1_link_consistency (neos : List NEO) (apps : List CloseApproach)
    (hu : (neos.map (fun n => n.designation)).Nodup)
    (hc : ∀ a ∈ apps, ∃ n ∈ neos, a.designation = n.designation) :
    (∀ j a, apps[j]? = some a → ∃ i n,
      (NEODatabase.init neos apps).caNeoAt j = some i ∧
      neos[i]? = some n ∧ n.designation = a.designation) ∧
    (∀ i n, neos[i]? = some n → ∀ j,
      (j ∈ (NEODatabase.init neos apps).neoAppsAt i ↔
        ∃ a, apps[j]? = some a ∧ a.designation = n.designation)) ∧
    (∀ i n j a, neos[i]? = some n → apps[j]? = some a →
      ((NEODatabase.init neos apps).caNeoAt j = some i ↔
        j ∈ (NEODatabase.init neos apps).neoAppsAt i)) := by
  have hinj : ∀ (k1 : Nat) (n1 : NEO) (k2 : Nat) (n2 : NEO),
      neos[k1]? = some n1 → neos[k2]? = some n2 →
      n1.designation = n2.designation → k1 = k2 := by
    intro k1 n1 k2 n2 h1 h2 hd
    have hm1 : (neos.map (fun n => n.designation))[k1]? = some n1.designation := by
      rw [List.getElem?_map, h1]; rfl
    have hm2 : (neos.map (fun n => n.designation))[k2]? = some n1.designation := by
      rw [List.getElem?_map, h2]
      simp [hd]
    exact List.getElem?_inj (by simpa using getElem?_lt_length h1) hu (hm1.trans hm2.symm)
  have hcaNeo : ∀ (j : Nat) (a : CloseApproach), apps[j]? = some a →
      ∀ (k : Nat) (n : NEO), neos[k]? = some n →
      a.designation = n.designation →
      (NEODatabase.init neos apps).caNeo[j]? = some (some k) := by
    intro j a ha k n hk hd
    have huniq : ∀ k2 n2, neos[k2]? = some n2 →
        (a.designation == n2.designation) = true → k2 = k := by
      intro k2 n2 hk2 hb2
      exact hinj k2 n2 k n hk2 hk (by rw [← (beq_iff_eq).mp hb2, hd])
    have := linkAll_fst_unique_match apps neos 0 (apps.map (fun _ => none))
      (by simp) j a ha k n hk ((beq_iff_eq).mpr hd) huniq
    simpa [NEODatabase.init] using this
  have happs : ∀ (i : Nat) (n : NEO), neos[i]? = some n →
      (NEODatabase.init neos apps).neoAppsAt i = matchIdxs apps n.designation := by
    intro i n hi
    have hsnd : (NEODatabase.init neos apps).neoApps =
        neos.map (fun neo => matchIdxs apps neo.designation) := by
      simpa [NEODatabase.init] using linkAll_snd apps neos 0 (apps.map (fun _ => none))
    simp only [NEODatabase.neoAppsAt, hsnd, List.getElem?_map, hi]
    rfl
  refine ⟨?_, ?_, ?_⟩
  · intro j a ha
    obtain ⟨n, hn, hd⟩ := hc a (List.getElem?_mem ha)
    obtain ⟨k, hk⟩ := List.mem_iff_getElem?.mp hn
    refine ⟨k, n, ?_, hk, hd.symm⟩
    rw [NEODatabase.caNeoAt, hcaNeo j a ha k n hk hd]
    rfl
  · intro i n hi j
    rw [happs i n hi, mem_matchIdxs]
  · intro i n j a hi ha
    obtain ⟨n0, hn0, hd0⟩ := hc a (List.getElem?_mem ha)
    obtain ⟨k, hk⟩ := List.mem_iff_getElem?.mp hn0
    have hca := hcaNeo j a ha k n0 hk hd0
    constructor
    · intro hcj
      rw [NEODatabase.caNeoAt, hca] at hcj
      have hki : k = i := by simpa using hcj
      subst hki
      have hnn : n = n0 := Option.some_inj.mp (hi.symm.trans hk)
      rw [happs k n hi, mem_matchIdxs]
      exact ⟨a, ha, by rw [hnn]; exact hd0⟩
    · intro hjm
      rw [happs i n hi, mem_matchIdxs] at hjm
      obtain ⟨a2, ha2, hd2⟩ := hjm
      have haa : a2 = a := Option.some_inj.mp (ha2.symm.trans ha)
      subst haa
      have hik : i = k := hinj i n k n0 hi hk (by rw [← hd2, hd0])
      rw [NEODatabase.caNeoAt, hca, hik]
      rfl

theorem C1_witness :
    (([neoA, neoB].map (fun n => n.designation)).Nodup ∧
      ∀ a ∈ [appA, appB], ∃ n ∈ [neoA, neoB], a.designation = n.designation) ∧
    ((∀ j a, [appA, appB][j]? = some a → ∃ i n,
      (NEODatabase.init [neoA, neoB] [appA, appB]).caNeoAt j = some i ∧
      [neoA, neoB][i]? = some n ∧ n.designation = a.designation) ∧
    (∀ i n, [neoA, neoB][i]? = some n → ∀ j,
      (j ∈ (NEODatabase.init [neoA, neoB] [appA, appB]).neoAppsAt i ↔
        ∃ a, [appA, appB][j]? = some a ∧ a.designation = n.designation)) ∧
    (∀ i n j a, [neoA, neoB][i]? = some n → [appA, appB][j]? = some a →
      ((NEODatabase.init [neoA, neoB] [appA, appB]).caNeoAt j = some i ↔
        j ∈ (NEODatabase.init [neoA, neoB] [appA, appB]).neoAppsAt i))) :=
  ⟨⟨by decide, by decide⟩,
    C1_link_consistency [neoA, neoB] [appA, appB] (by decide) (by decide)⟩
